import Mathlib

/-!
Verification of the low-frequency tag operations module (`armsrc/lfops.c`)
of a 125 kHz proximity-card reader/writer firmware.

The C code drives an antenna through an FPGA configuration word
(`FpgaWriteConfWord`) and busy-waits (`WaitUS`/`WaitMS`/`SpinDelay`).  We
embed the field-relevant behaviour of each operation as a list of events
(configuration-word writes, timed waits, coil level changes, acquisition
runs), and the pure data computations (bit framing, parity, waveform
composition) as Lean functions over `Nat` mirroring the C arithmetic.
-/

namespace LFOps

/-- FPGA major modes used by the module.  `adcReaderField` is
`FPGA_MAJOR_MODE_LF_ADC | FPGA_LF_ADC_READER_FIELD` (reader field driven,
i.e. antenna field on); `off` is `FPGA_MAJOR_MODE_OFF` (field off);
`adc` is LF ADC without the reader field; `edgeDetect` is
`FPGA_MAJOR_MODE_LF_EDGE_DETECT`; `passthru` is
`FPGA_MAJOR_MODE_LF_PASSTHRU`. -/
inductive FpgaMode where
  | off
  | adc
  | adcReaderField
  | edgeDetect
  | passthru
  deriving DecidableEq, Repr

/-- An observable event of an operation:  a `FpgaWriteConfWord` call, a
busy-wait of a duration in microseconds, a coil level change
(`OPEN_COIL`/`SHORT_COIL` or `HIGH/LOW(GPIO_SSC_DOUT)`), or a run of an
acquisition primitive. -/
inductive FieldEv where
  | conf (m : FpgaMode)
  | wait (us : Nat)
  | coil (driven : Bool)
  | acq
  deriving DecidableEq, Repr

/-- Interpret an event list as the sequence of (mode, dwell) phases:
starting from mode `m`, each `wait d` contributes the pair of the mode
current at that moment and the duration `d`. -/
def phasesFrom : FpgaMode → List FieldEv → List (FpgaMode × Nat)
  | _, [] => []
  | _, FieldEv.conf m' :: rest => phasesFrom m' rest
  | m, FieldEv.wait d :: rest => (m, d) :: phasesFrom m rest
  | m, FieldEv.coil _ :: rest => phasesFrom m rest
  | m, FieldEv.acq :: rest => phasesFrom m rest

/-- Durations dwelt with the FPGA in mode `off` (taking `off` as the
initial mode; every trace we build starts with a `conf`, so the choice of
initial mode is irrelevant there). -/
def offDurations (evs : List FieldEv) : List Nat :=
  (phasesFrom FpgaMode.off evs).filterMap
    (fun p => if p.1 = FpgaMode.off then some p.2 else none)

/-- Durations dwelt with the reader field driven. -/
def onDurations (evs : List FieldEv) : List Nat :=
  (phasesFrom FpgaMode.off evs).filterMap
    (fun p => if p.1 = FpgaMode.adcReaderField then some p.2 else none)

/-- The last FPGA configuration word written during a trace, if any. -/
def lastConf : List FieldEv → Option FpgaMode
  | [] => none
  | FieldEv.conf m :: rest =>
      match lastConf rest with
      | some m' => some m'
      | none => some m
  | _ :: rest => lastConf rest

/-- The last configuration word of a concatenation is the one of the
second part when it writes any, else the first part's. -/
theorem lastConf_append (a b : List FieldEv) :
    lastConf (a ++ b) =
      match lastConf b with
      | some m => some m
      | none => lastConf a := by
  induction a with
  | nil =>
      cases h : lastConf b <;> simp [lastConf, h]
  | cons e rest ih =>
      cases e with
      | conf m =>
          simp only [List.cons_append, lastConf, List.append_eq]
          rw [ih]
          cases h : lastConf b <;> cases h2 : lastConf rest <;> simp [h, h2]
      | wait d => simp only [List.cons_append, lastConf, List.append_eq, ih]
      | coil bb => simp only [List.cons_append, lastConf, List.append_eq, ih]
      | acq => simp only [List.cons_append, lastConf, List.append_eq, ih]

/-! ### T55xx timing constants (`#define`s in lfops.c, all in microseconds) -/

def START_GAP : Nat := 31*8
def WRITE_GAP : Nat := 20*8
def WRITE_0   : Nat := 18*8
def WRITE_1   : Nat := 50*8
def READ_GAP  : Nat := 15*8

/-- `TurnReadLFOn(delay)`: drive the reader field and busy-wait `delay`. -/
def TurnReadLFOn (delay : Nat) : List FieldEv :=
  [FieldEv.conf FpgaMode.adcReaderField, FieldEv.wait delay]

/-- `T55xxWriteBit(bit)`: `if (!bit) TurnReadLFOn(WRITE_0); else
TurnReadLFOn(WRITE_1); FpgaWriteConfWord(FPGA_MAJOR_MODE_OFF);
WaitUS(WRITE_GAP);`.  The C argument is an `int`; zero means bit 0. -/
def T55xxWriteBit (bit : Nat) : List FieldEv :=
  (if bit = 0 then TurnReadLFOn WRITE_0 else TurnReadLFOn WRITE_1)
    ++ [FieldEv.conf FpgaMode.off, FieldEv.wait WRITE_GAP]

/-! ### Multi-block write (`WriteT55xx`) -/

/-- The loop `for (uint8_t i = numblocks+startblock; i > startblock; i--)
  T55xxWriteBlockExt(blockdata[i-1], i-1, 0, 0);`
as the list of block addresses it issues, in order. -/
def addrLoop (s : Nat) : Nat → List Nat
  | 0 => []
  | i+1 => if i + 1 > s then i :: addrLoop s i else []

/-- Block addresses issued by `WriteT55xx(blockdata, startblock,
numblocks)`.  Both parameters are `uint8_t`, and the loop counter is a
`uint8_t`, hence the reduction mod 256 of the initial counter value. -/
def WriteT55xx_addrs (startblock numblocks : Nat) : List Nat :=
  addrLoop startblock ((numblocks + startblock) % 256)

theorem addrLoop_zero (n : Nat) : addrLoop 0 n = (List.range n).reverse := by
  induction n with
  | zero => rfl
  | succ m ih =>
      simp [addrLoop, ih, List.range_succ]

/-! ### Theorems for claim C1 -/

/-- C1 counterexample.  The claim says the bit value is encoded in the
field-off duration (short for 0, long for 1) followed by a fixed field-on
gap.  In `T55xxWriteBit` the off durations for bit 0 and bit 1 are the
same fixed `WRITE_GAP`, while the field-on durations differ with the bit
value: the claim's assignment of the roles of field-on and field-off is
the reverse of what the code does. -/
theorem T55xxWriteBit_claim_false :
    offDurations (T55xxWriteBit 0) = offDurations (T55xxWriteBit 1) ∧
    offDurations (T55xxWriteBit 0) = [WRITE_GAP] ∧
    onDurations (T55xxWriteBit 0) = [WRITE_0] ∧
    onDurations (T55xxWriteBit 1) = [WRITE_1] ∧
    WRITE_0 ≠ WRITE_1 := by
  decide

/-- C1 (amended).  For every bit value `v` sent by `T55xxWriteBit`, the
bit is encoded entirely in the field-ON duration (short `WRITE_0` for 0,
long `WRITE_1` for nonzero), after which the field is held OFF for the
fixed inter-bit gap `WRITE_GAP`; there is no symbol shape and the off
duration does not depend on the bit. -/
theorem T55xxWriteBit_phases (v : Nat) (m : FpgaMode) :
    phasesFrom m (T55xxWriteBit v) =
      [(FpgaMode.adcReaderField, if v = 0 then WRITE_0 else WRITE_1),
       (FpgaMode.off, WRITE_GAP)] := by
  by_cases h : v = 0 <;> simp [T55xxWriteBit, TurnReadLFOn, phasesFrom, h]

/-! ### Theorems for claim C2 -/

/-- C2.  A multi-block T55xx write of `N` blocks starting at block 0
issues the block addresses `N-1, N-2, …, 0`: a strictly descending
sequence ending with the configuration block (address 0). -/
theorem WriteT55xx_descending (N : Nat) (h0 : 0 < N) (h1 : N < 256) :
    WriteT55xx_addrs 0 N = (List.range N).reverse ∧
    List.Chain' (fun a b => b < a) (WriteT55xx_addrs 0 N) ∧
    (WriteT55xx_addrs 0 N).getLast? = some 0 := by
  have he : WriteT55xx_addrs 0 N = (List.range N).reverse := by
    unfold WriteT55xx_addrs
    rw [Nat.add_zero, Nat.mod_eq_of_lt h1, addrLoop_zero]
  refine ⟨he, ?_, ?_⟩
  · rw [he, List.chain'_reverse]
    have h := List.pairwise_lt_range N
    exact h.chain'.imp (fun {a b} hab => hab)
  · rw [he, List.getLast?_reverse]
    cases N with
    | zero => exact absurd h0 (by simp)
    | succ m => simp [List.range_succ_eq_map]

/-- Witness for C2 at `N = 4`. -/
theorem WriteT55xx_descending_witness :
    WriteT55xx_addrs 0 4 = (List.range 4).reverse ∧
    List.Chain' (fun a b => b < a) (WriteT55xx_addrs 0 4) ∧
    (WriteT55xx_addrs 0 4).getLast? = some 0 :=
  WriteT55xx_descending 4 (by decide) (by decide)

/-! ### Biphase encoder (`biphaseSimBit` and the biphase branch of
`CmdASKsimTag`) -/

/-- `biphaseSimBit(c, &n, clock, &phase)`: the samples written for one bit
and the updated running phase (`memset` truncates its value argument to a
byte, hence the `% 256`).  A nonzero `c` writes a half-clock run of
`c^1^phase` then a half-clock run of `c^phase`, leaving the phase alone;
`c = 0` writes a full clock of `c^phase` and flips the phase. -/
def biphaseSimBit (c clock phase : Nat) : List Nat × Nat :=
  let halfClk := clock / 2
  if c ≠ 0 then
    (List.replicate halfClk ((c ^^^ 1 ^^^ phase) % 256) ++
       List.replicate halfClk ((c ^^^ phase) % 256), phase)
  else
    (List.replicate clock ((c ^^^ phase) % 256), phase ^^^ 1)

/-- One pass of the biphase branch of `CmdASKsimTag`: encode every bit of
the stream xor-ed with `invert`, threading the running phase and
appending the samples in order. -/
def biphasePass (bits : List Nat) (invert clock phase : Nat) :
    List Nat × Nat :=
  match bits with
  | [] => ([], phase)
  | b :: rest =>
      let r := biphaseSimBit (b ^^^ invert) clock phase
      let t := biphasePass rest invert clock r.2
      (r.1 ++ t.1, t.2)

/-- The biphase branch of `CmdASKsimTag` (encoding == 2): one pass from
phase 0 and, exactly when the running phase is 1 afterwards, a second
identical pass over the same bitstream. -/
def CmdASKsimTag_biphase (bits : List Nat) (invert clock : Nat) :
    List Nat × Nat :=
  let p1 := biphasePass bits invert clock 0
  if p1.2 = 1 then
    let p2 := biphasePass bits invert clock p1.2
    (p1.1 ++ p2.1, p2.2)
  else p1

theorem biphaseSimBit_snd (c clock p : Nat) :
    (biphaseSimBit c clock p).2 = if c = 0 then p ^^^ 1 else p := by
  unfold biphaseSimBit
  by_cases h : c = 0 <;> simp [h]

theorem biphasePass_cons (b : Nat) (rest : List Nat) (invert clock p : Nat) :
    biphasePass (b :: rest) invert clock p =
      ((biphaseSimBit (b ^^^ invert) clock p).1 ++
         (biphasePass rest invert clock
            (biphaseSimBit (b ^^^ invert) clock p).2).1,
       (biphasePass rest invert clock
          (biphaseSimBit (b ^^^ invert) clock p).2).2) := rfl

/-- The running phase after a pass is the initial phase xor-ed with the
phase a pass from 0 would produce (each 0-bit contributes one flip). -/
theorem biphasePass_phase (bits : List Nat) (invert clock p : Nat) :
    (biphasePass bits invert clock p).2 =
      p ^^^ (biphasePass bits invert clock 0).2 := by
  induction bits generalizing p with
  | nil => simp [biphasePass]
  | cons b rest ih =>
      rw [biphasePass_cons, biphasePass_cons]
      simp only [biphaseSimBit_snd]
      by_cases hb : b ^^^ invert = 0
      · rw [if_pos hb, if_pos hb, ih (p ^^^ 1), ih (0 ^^^ 1)]
        simp [Nat.xor_assoc]
      · rw [if_neg hb, if_neg hb, ih p, ih 0]

/-! ### Theorems for claim C8 -/

/-- C8.  A 1-bit toggles the level at mid-clock (half a clock at the
current phase, half at its complement) without flipping the running
phase; a 0-bit holds the current phase for the full clock and flips the
running phase.  Whenever the running phase is 1 after one full pass, the
encoder appends a second identical pass, and that second pass returns the
running phase to 0. -/
theorem biphase_encoding (bits : List Nat) (invert clock c p : Nat)
    (hc : c ≤ 1) (hp : p ≤ 1) :
    (c = 1 → biphaseSimBit c clock p =
      (List.replicate (clock/2) p ++ List.replicate (clock/2) (1-p), p)) ∧
    (c = 0 → biphaseSimBit c clock p = (List.replicate clock p, 1-p)) ∧
    ((biphasePass bits invert clock 0).2 = 1 →
      (biphasePass bits invert clock 1).2 = 0 ∧
      CmdASKsimTag_biphase bits invert clock =
        ((biphasePass bits invert clock 0).1 ++
           (biphasePass bits invert clock 1).1, 0)) := by
  refine ⟨?_, ?_, ?_⟩
  · rintro rfl
    interval_cases p <;> rfl
  · rintro rfl
    interval_cases p <;> rfl
  · intro h1
    have h2 : (biphasePass bits invert clock 1).2 = 0 := by
      rw [biphasePass_phase, h1]
      decide
    refine ⟨h2, ?_⟩
    simp [CmdASKsimTag_biphase, h1, h2]

/-- Witness for C8: the single 0-bit stream leaves phase 1 after one
pass, so the encoder runs the corrective second pass and closes the phase
at 0. -/
theorem biphase_encoding_witness :
    CmdASKsimTag_biphase [0] 0 32 =
      ((biphasePass [0] 0 32 0).1 ++ (biphasePass [0] 0 32 1).1, 0) := by
  have h := biphase_encoding [0] 0 32 1 0 (by decide) (by decide)
  exact (h.2.2 (by decide)).2

/-! ### FSK waveform composition (`fcAll` and the loop of `CmdFSKsimTAG`) -/

/-- One field-clock wave of `fc` samples: `fc - fc/2` zeros then `fc/2`
ones (`halfFC = fc/2`; with an odd `fc` the extra sample goes to the low
half, as in the code). -/
def fcWave (fc : Nat) : List Nat :=
  List.replicate (fc - fc/2) 0 ++ List.replicate (fc/2) 1

/-- `fcAll(fc, &n, clock, &modCnt)`: the samples emitted for one logical
bit at sub-carrier `fc` and the updated modifier counter.  `clock/fc`
whole waves are always emitted; when `mod = clock % fc` is nonzero the
counter increments and either (`fc % mod == 0`, the code's `modAdjOk`)
one extra whole wave is appended on every `modAdj = fc/mod`-th
increment, or (`fc % mod != 0`) one shortened wave of `mod` samples is
appended. -/
def fcAll (fc clock modCnt : Nat) : List Nat × Nat :=
  let wavesPerClock := clock / fc
  let md := clock % fc
  let modAdj := fc / md
  let waves := (List.replicate wavesPerClock (fcWave fc)).flatten
  let modCnt' := if 0 < md then modCnt + 1 else modCnt
  let extra :=
    if 0 < md ∧ fc % md = 0 then
      (if modCnt' % modAdj = 0 then fcWave fc else [])
    else []
  let short :=
    if 0 < md ∧ ¬ fc % md = 0 then
      List.replicate (md - md/2) 0 ++ List.replicate (md/2) 1
    else []
  (waves ++ extra ++ short, modCnt')

/-- The encoding loop of `CmdFSKsimTAG`: a stream bit equal to `invert`
is emitted at `fcLow`, every other bit at `fcHigh`; the modifier counter
is threaded through all calls. -/
def fskSimLoop (fcHigh fcLow clk invert : Nat) :
    List Nat → Nat → List Nat × Nat
  | [], modCnt => ([], modCnt)
  | b :: rest, modCnt =>
      let r := fcAll (if b = invert then fcLow else fcHigh) clk modCnt
      let t := fskSimLoop fcHigh fcLow clk invert rest r.2
      (r.1 ++ t.1, t.2)

/-- `CmdFSKsimTAG` waveform build: the loop starts with `modCnt = 0`. -/
def CmdFSKsimTAG (fcHigh fcLow clk invert : Nat) (bits : List Nat) :
    List Nat × Nat :=
  fskSimLoop fcHigh fcLow clk invert bits 0

theorem fcWave_length (fc : Nat) : (fcWave fc).length = fc := by
  simp [fcWave]
  omega

theorem wavesFlatten_length (w fc : Nat) :
    ((List.replicate w (fcWave fc)).flatten).length = w * fc := by
  induction w with
  | zero => simp
  | succ k ih => simp [List.replicate_succ, ih, fcWave_length, Nat.succ_mul]; omega

theorem fcAll_mod_zero (fc clk cnt : Nat) (h : clk % fc = 0) :
    fcAll fc clk cnt = ((List.replicate (clk/fc) (fcWave fc)).flatten, cnt) := by
  unfold fcAll
  simp [h]

theorem fcAll_fsk2 (fc clk cnt : Nat) (h1 : clk % fc ≠ 0)
    (h2 : fc % (clk % fc) = 0) :
    fcAll fc clk cnt =
      ((List.replicate (clk/fc) (fcWave fc)).flatten ++
         (if (cnt+1) % (fc/(clk % fc)) = 0 then fcWave fc else []),
       cnt + 1) := by
  unfold fcAll
  simp [Nat.pos_of_ne_zero h1, h2]

theorem fcAll_fsk1 (fc clk cnt : Nat) (h1 : clk % fc ≠ 0)
    (h2 : fc % (clk % fc) ≠ 0) :
    fcAll fc clk cnt =
      ((List.replicate (clk/fc) (fcWave fc)).flatten ++
         (List.replicate ((clk % fc) - (clk % fc)/2) 0 ++
            List.replicate ((clk % fc)/2) 1),
       cnt + 1) := by
  unfold fcAll
  simp [Nat.pos_of_ne_zero h1, h2]

/-- FSK2 running total (stated additively to stay in the semiring): over
`n` bits all emitted at `fcHigh = fc` starting from counter `cnt`, the
sample count is the base `n * (clk/fc) * fc` plus one whole extra wave
for each counter value in `(cnt, cnt+n]` divisible by
`modAdj = fc/(clk % fc)`. -/
theorem fskLoop_fsk2_length (fc f2 clk : Nat) (h1 : clk % fc ≠ 0)
    (h2 : fc % (clk % fc) = 0) (n cnt : Nat) :
    (fskSimLoop fc f2 clk 0 (List.replicate n 1) cnt).1.length +
        (cnt / (fc/(clk % fc))) * fc =
      n * ((clk/fc) * fc) + ((cnt + n) / (fc/(clk % fc))) * fc := by
  induction n generalizing cnt with
  | zero => simp [fskSimLoop]
  | succ k ih =>
      rw [List.replicate_succ]
      simp only [fskSimLoop, if_neg (by decide : ¬ (1:Nat) = 0),
        fcAll_fsk2 fc clk cnt h1 h2, List.length_append, wavesFlatten_length,
        apply_ite List.length, fcWave_length, List.length_nil]
      have ih' := ih (cnt + 1)
      have hnum : cnt + 1 + k = cnt + (k + 1) := by omega
      rw [hnum] at ih'
      have hδ := Nat.succ_div cnt (fc/(clk % fc))
      by_cases hm : (cnt + 1) % (fc/(clk % fc)) = 0
      · rw [if_pos hm]
        rw [if_pos (Nat.dvd_iff_mod_eq_zero.mpr hm)] at hδ
        rw [hδ, Nat.add_mul, Nat.one_mul] at ih'
        linarith [ih']
      · rw [if_neg hm]
        rw [if_neg (fun hdd => hm (Nat.dvd_iff_mod_eq_zero.mp hdd)),
          Nat.add_zero] at hδ
        rw [hδ] at ih'
        linarith [ih']

/-- FSK1 running total: each bit emits exactly `clk` samples
(`(clk/fc)*fc` whole-wave samples plus the `clk % fc`-sample shortened
wave). -/
theorem fskLoop_fsk1_length (fc f2 clk : Nat) (h1 : clk % fc ≠ 0)
    (h2 : fc % (clk % fc) ≠ 0) (n cnt : Nat) :
    (fskSimLoop fc f2 clk 0 (List.replicate n 1) cnt).1.length = n * clk := by
  induction n generalizing cnt with
  | zero => simp [fskSimLoop]
  | succ k ih =>
      rw [List.replicate_succ]
      simp only [fskSimLoop, if_neg (by decide : ¬ (1:Nat) = 0),
        fcAll_fsk1 fc clk cnt h1 h2, List.length_append, wavesFlatten_length,
        List.length_replicate, ih (cnt+1)]
      have hdm : clk / fc * fc + clk % fc = clk := by
        rw [Nat.mul_comm]
        exact Nat.div_add_mod clk fc
      rw [Nat.succ_mul]
      omega

/-- No-modifier running total: each bit emits exactly the
`(clk/fc)*fc` whole-wave samples and the counter never moves. -/
theorem fskLoop_mod_zero_length (fc f2 clk : Nat) (h : clk % fc = 0)
    (n cnt : Nat) :
    (fskSimLoop fc f2 clk 0 (List.replicate n 1) cnt).1.length =
      n * ((clk/fc) * fc) := by
  induction n generalizing cnt with
  | zero => simp [fskSimLoop]
  | succ k ih =>
      rw [List.replicate_succ]
      simp only [fskSimLoop, if_neg (by decide : ¬ (1:Nat) = 0),
        fcAll_mod_zero fc clk cnt h, List.length_append, wavesFlatten_length,
        ih cnt]
      rw [Nat.succ_mul]
      omega

/-! ### Theorems for claim C3 -/

set_option maxRecDepth 4000 in
/-- C3 counterexample.  With clock 50 and `fc = 8` (remainder 2 dividing
8), four bits emit `4*48 + 8 = 200` samples: exactly ONE extra wave (on
the 4th bit), not one extra wave per 4 field-clock waves of the 24
emitted, which would give `192 + 6*8 = 240`.  And with clock 44 and
`fc = 10` (remainder 4, not dividing 10), one bit emits 44 samples, which
is not of the claimed form `wavesPerClock*fc*bits + extraWaves*fc`
(`= 40 + extraWaves*10`, always divisible by 10). -/
theorem fsk_tiebreak_claim_false :
    (CmdFSKsimTAG 8 10 50 0 [1,1,1,1]).1.length = 200 ∧
    (CmdFSKsimTAG 8 10 50 0 [1,1,1,1]).1.length ≠ 6*8*4 + 6*8 ∧
    (CmdFSKsimTAG 10 8 44 0 [1]).1.length = 44 ∧
    ¬ (10 ∣ (CmdFSKsimTAG 10 8 44 0 [1]).1.length) := by decide

/-- C3 (amended).  Per bit at sub-carrier `fc` and clock `clk`:  if
`clk % fc = 0` no modifier is applied and the counter is untouched; if
the remainder is nonzero and divides `fc`, one extra full `fc`-sample
wave is inserted on every `fc/(clk % fc)`-th encoded BIT (not every
`fc/(clk % fc)` field-clock waves); otherwise one shortened wave of
`clk % fc` samples is appended after every bit.  Totals over `n` bits:
`n*(clk/fc)*fc` with no modifier, plus `(n/(fc/(clk % fc)))*fc` in the
periodic-extra-wave case, and `n*clk` in the shortened-wave case. -/
theorem fsk_tiebreak (fc f2 clk cnt n : Nat) :
    (clk % fc = 0 →
      fcAll fc clk cnt = ((List.replicate (clk/fc) (fcWave fc)).flatten, cnt) ∧
      (CmdFSKsimTAG fc f2 clk 0 (List.replicate n 1)).1.length =
        n * ((clk/fc) * fc)) ∧
    (clk % fc ≠ 0 → fc % (clk % fc) = 0 →
      fcAll fc clk cnt =
        ((List.replicate (clk/fc) (fcWave fc)).flatten ++
           (if (cnt+1) % (fc/(clk % fc)) = 0 then fcWave fc else []),
         cnt + 1) ∧
      (CmdFSKsimTAG fc f2 clk 0 (List.replicate n 1)).1.length =
        n * ((clk/fc) * fc) + (n / (fc/(clk % fc))) * fc) ∧
    (clk % fc ≠ 0 → fc % (clk % fc) ≠ 0 →
      fcAll fc clk cnt =
        ((List.replicate (clk/fc) (fcWave fc)).flatten ++
           (List.replicate ((clk % fc) - (clk % fc)/2) 0 ++
              List.replicate ((clk % fc)/2) 1),
         cnt + 1) ∧
      (CmdFSKsimTAG fc f2 clk 0 (List.replicate n 1)).1.length = n * clk) := by
  refine ⟨fun h => ⟨fcAll_mod_zero fc clk cnt h, ?_⟩,
          fun h1 h2 => ⟨fcAll_fsk2 fc clk cnt h1 h2, ?_⟩,
          fun h1 h2 => ⟨fcAll_fsk1 fc clk cnt h1 h2, ?_⟩⟩
  · exact fskLoop_mod_zero_length fc f2 clk h n 0
  · have h0 := fskLoop_fsk2_length fc f2 clk h1 h2 n 0
    rw [Nat.zero_div, Nat.zero_mul, Nat.add_zero, Nat.zero_add] at h0
    exact h0
  · exact fskLoop_fsk1_length fc f2 clk h1 h2 n 0

/-- Witness for C3 at the spec's own test point: clock 50, `fc = 8`,
four bits, starting counter 0. -/
theorem fsk_tiebreak_witness :
    (CmdFSKsimTAG 8 10 50 0 (List.replicate 4 1)).1.length =
      4 * ((50/8) * 8) + (4 / (8/(50 % 8))) * 8 := by
  have h := fsk_tiebreak 8 10 50 0 4
  exact (h.2.1 (by decide) (by decide)).2

/-! ### T55xx block read (`T55xxReadBlock`) -/

/-- The bit values handed to `T55xxWriteBit` by
`T55xxReadBlock(arg0, Block, Pwd)`, in order: opcode bit 1, the page bit,
the 32 password bits (mask `0x80000000` down to 1) when password mode is
on, the zero separator, and — except in regular read mode, decided by
`Block == 0xFF` BEFORE the `Block &= 0x7` masking — the three block
address bits `Block & 4, Block & 2, Block & 1`. -/
def T55xxReadBlock_bits (arg0 Block Pwd : Nat) : List Nat :=
  let Page := (arg0 &&& 2) >>> 1
  let B := Block &&& 0x7
  [1, Page] ++
    (if arg0 &&& 1 = 1 then
       (List.range 32).map (fun k => Pwd &&& (2^(31-k)))
     else []) ++
    [0] ++
    (if Block = 0xFF then [] else [B &&& 4, B &&& 2, B &&& 1])

/-! ### Theorems for claim C9 -/

/-- C9.  `Block = 0xFF` selects regular read mode and no block-address
bits are transmitted at all; any other (`uint8_t`) `Block` transmits
exactly the three low bits of `Block` as the address, so values above 7
are silently reduced modulo 8 rather than rejected. -/
theorem T55xxReadBlock_addressing (arg0 Block Pwd : Nat) (hB : Block < 256) :
    (Block = 0xFF →
      T55xxReadBlock_bits arg0 Block Pwd =
        [1, (arg0 &&& 2) >>> 1] ++
          (if arg0 &&& 1 = 1 then
             (List.range 32).map (fun k => Pwd &&& (2^(31-k)))
           else []) ++ [0]) ∧
    (Block ≠ 0xFF →
      T55xxReadBlock_bits arg0 Block Pwd =
        [1, (arg0 &&& 2) >>> 1] ++
          (if arg0 &&& 1 = 1 then
             (List.range 32).map (fun k => Pwd &&& (2^(31-k)))
           else []) ++ [0] ++
          [Block &&& 4, Block &&& 2, Block &&& 1] ∧
      T55xxReadBlock_bits arg0 Block Pwd =
        T55xxReadBlock_bits arg0 (Block % 8) Pwd) := by
  have hand7 : ∀ x : Nat, x &&& 7 = x % 8 := fun x => by
    have h := Nat.and_pow_two_sub_one_eq_mod x 3
    norm_num at h
    exact h
  have hmask : ∀ x i, i < 3 → (x % 8) &&& 2^i = x &&& 2^i := by
    intro x i hi
    have h8 : (8:Nat) = 2^3 := by norm_num
    rw [Nat.and_two_pow, Nat.and_two_pow, h8, Nat.testBit_mod_two_pow]
    simp [hi]
  have hm4 : ∀ x : Nat, (x % 8) &&& 4 = x &&& 4 := fun x => by
    have h := hmask x 2 (by norm_num); norm_num at h; exact h
  have hm2 : ∀ x : Nat, (x % 8) &&& 2 = x &&& 2 := fun x => by
    have h := hmask x 1 (by norm_num); norm_num at h; exact h
  have hm1 : ∀ x : Nat, (x % 8) &&& 1 = x &&& 1 := fun x => by
    simp only [Nat.and_one_is_mod]
    omega
  constructor
  · rintro rfl
    simp [T55xxReadBlock_bits]
  · intro hne
    have h8 : Block % 8 ≠ 0xFF := by omega
    constructor
    · simp only [T55xxReadBlock_bits, if_neg hne, hand7, hm4, hm2, hm1]
    · simp only [T55xxReadBlock_bits, if_neg hne, if_neg h8, hand7,
        Nat.mod_mod_of_dvd _ (dvd_refl 8), hm4, hm2, hm1]

/-- Witness for C9 with `Block = 9` (address bits those of `9 % 8 = 1`)
and password mode on. -/
theorem T55xxReadBlock_addressing_witness :
    T55xxReadBlock_bits 1 9 0x12345678 =
      T55xxReadBlock_bits 1 (9 % 8) 0x12345678 :=
  ((T55xxReadBlock_addressing 1 9 0x12345678 (by decide)).2
    (by decide)).2

/-! ### EM4205/4469 forward-link data framer (`Prepare_Data`) -/

/-- State of the `Prepare_Data` loops: the shifting `data` word, the
`line_parity` and `column_parity` accumulators (both `uint8_t`), and the
bytes written through `forward_ptr` so far. -/
structure PDSt where
  data : Nat
  lp : Nat
  cp : Nat
  out : List Nat

/-- One iteration of the inner `for(j...)` loop of `Prepare_Data`:
`line_parity ^= data; column_parity ^= (data & 1) << j;
*forward_ptr++ = data; data >>= 1;` — the store and the `uint8_t`
accumulators truncate to a byte. -/
def pdBitStep (s : PDSt) (j : Nat) : PDSt :=
  { data := s.data >>> 1
    lp := (s.lp ^^^ s.data) % 256
    cp := (s.cp ^^^ ((s.data &&& 1) <<< j)) % 256
    out := s.out ++ [s.data % 256] }

/-- One row of `Prepare_Data`: reset `line_parity` to 0, run the 8 inner
iterations, then store the row-parity byte. -/
def pdRow (data cp : Nat) (out : List Nat) : PDSt :=
  let s := (List.range 8).foldl pdBitStep
    { data := data, lp := 0, cp := cp, out := out }
  { s with out := s.out ++ [s.lp] }

/-- `Prepare_Data(data_low, data_hi)`: four 9-byte rows (8 data bits LSB
first, then the row parity) — rows 0–1 consume `data_low` and its
shifts, rows 2–3 consume `data_hi` (`if(i == 1) data = data_hi`) — then
the 8 column-parity bytes (`*forward_ptr++ = column_parity;
column_parity >>= 1;`), then the final 0 stored without advancing the
pointer: 45 cells in all, matching the returned bit count. -/
def Prepare_Data (data_low data_hi : Nat) : List Nat :=
  let r0 := pdRow data_low 0 []
  let r1 := pdRow r0.data r0.cp r0.out
  let r2 := pdRow data_hi r1.cp r1.out
  let r3 := pdRow r2.data r2.cp r2.out
  let cols := (List.range 8).foldl
    (fun (t : Nat × List Nat) _ => (t.1 >>> 1, t.2 ++ [t.1])) (r3.cp, r3.out)
  cols.2 ++ [0]

/-- The bits transmitted for a data sub-frame: `SendForward` sends
`(*fwd_write_ptr) & 1` of every stored cell. -/
def pdBits (data_low data_hi : Nat) : List Nat :=
  (Prepare_Data data_low data_hi).map (fun b => b % 2)

/-! Bit-extraction helper lemmas. -/

theorem mod2_eq_of_testBit (x y j1 j2 : Nat)
    (h : x.testBit j1 = y.testBit j2) : (x >>> j1) % 2 = (y >>> j2) % 2 := by
  rw [Nat.testBit_to_div_mod, Nat.testBit_to_div_mod, decide_eq_decide] at h
  rw [Nat.shiftRight_eq_div_pow, Nat.shiftRight_eq_div_pow]
  rcases Nat.mod_two_eq_zero_or_one (x / 2^j1) with h1 | h1 <;>
    rcases Nat.mod_two_eq_zero_or_one (y / 2^j2) with h2 | h2 <;>
    rw [h1, h2] <;> rw [h1, h2] at h <;> simp_all

/-- Bit `j` of an xor is the mod-2 sum of the bits `j`. -/
theorem bitj_xor (a b j : Nat) :
    ((a ^^^ b) >>> j) % 2 = (((a >>> j) % 2) + ((b >>> j) % 2)) % 2 := by
  have h := Nat.testBit_xor a b j
  rw [Nat.testBit_to_div_mod, Nat.testBit_to_div_mod,
    Nat.testBit_to_div_mod] at h
  rw [Nat.shiftRight_eq_div_pow, Nat.shiftRight_eq_div_pow,
    Nat.shiftRight_eq_div_pow]
  rcases Nat.mod_two_eq_zero_or_one ((a ^^^ b) / 2^j) with h1 | h1 <;>
    rcases Nat.mod_two_eq_zero_or_one (a / 2^j) with h2 | h2 <;>
    rcases Nat.mod_two_eq_zero_or_one (b / 2^j) with h3 | h3 <;>
    rw [h1, h2, h3] at h ⊢ <;> simp_all

/-- Below bit 8, the byte truncation is invisible. -/
theorem bitj_mod256 (a j : Nat) (h : j < 8) :
    ((a % 256) >>> j) % 2 = (a >>> j) % 2 := by
  apply mod2_eq_of_testBit
  have ht := Nat.testBit_mod_two_pow a 8 j
  norm_num at ht
  simp [ht, h]

theorem mod2_mod256 (a : Nat) : (a % 256) % 2 = a % 2 :=
  Nat.mod_mod_of_dvd a (by norm_num)

theorem xor_mod_two (a b : Nat) : (a ^^^ b) % 2 = (a % 2 + b % 2) % 2 := by
  have h := bitj_xor a b 0
  simp only [Nat.shiftRight_zero] at h
  exact h

/-! ### Theorems for claim C4 -/

/-- C4 counterexample.  For data `0xFFFFFFFF`
(`Prepare_Data(0xFFFF, 0xFFFF)`) every row is eight 1-bits, so each row
parity is the XOR of eight ones, which is 0 — not 1 as the claim says.
The full 45-bit frame: four rows of eight 1s each followed by row parity
0, then eight column parities 0, then the trailing 0. -/
theorem Prepare_Data_claim_false :
    (pdBits 0xFFFF 0xFFFF).getD 8 0 = 0 ∧
    ¬ (pdBits 0xFFFF 0xFFFF).getD 8 0 = 1 ∧
    pdBits 0xFFFF 0xFFFF =
      [1,1,1,1,1,1,1,1,0, 1,1,1,1,1,1,1,1,0, 1,1,1,1,1,1,1,1,0,
       1,1,1,1,1,1,1,1,0, 0,0,0,0,0,0,0,0, 0] := by decide

/-- The `line_parity` accumulated over one 8-bit row starting from
`data = x` (a projection of the row fold, used to state the closed form
of the frame). -/
def lp8 (x : Nat) : Nat :=
  ((List.range 8).foldl pdBitStep { data := x, lp := 0, cp := 0, out := [] }).lp

/-- The `column_parity` accumulated over one 8-bit row starting from
`data = x` and incoming accumulator `c`. -/
def cp8 (x c : Nat) : Nat :=
  ((List.range 8).foldl pdBitStep { data := x, lp := 0, cp := c, out := [] }).cp

/-- The nine cells one row stores: the eight (byte-truncated) data
shifts, LSB first, then the row parity. -/
def rowOut (x : Nat) : List Nat :=
  [x % 256, (x >>> 1) % 256, (x >>> 2) % 256, (x >>> 3) % 256,
   (x >>> 4) % 256, (x >>> 5) % 256, (x >>> 6) % 256, (x >>> 7) % 256, lp8 x]

/-- The eight cells the column loop stores: the successive right shifts
of the final column-parity byte. -/
def colsOut (c : Nat) : List Nat :=
  [c, c >>> 1, c >>> 2, c >>> 3, c >>> 4, c >>> 5, c >>> 6, c >>> 7]

theorem pdRow_out_out (x c : Nat) (out : List Nat) :
    (pdRow x c out).out = out ++ rowOut x := by
  have hr : List.range 8 = [0,1,2,3,4,5,6,7] := rfl
  simp only [pdRow, pdBitStep, lp8, rowOut, hr, List.foldl_cons,
    List.foldl_nil, List.append_assoc, List.cons_append, List.nil_append,
    ← Nat.shiftRight_add]

theorem pdRow_out_data (x c : Nat) (out : List Nat) :
    (pdRow x c out).data = x >>> 8 := by
  have hr : List.range 8 = [0,1,2,3,4,5,6,7] := rfl
  simp only [pdRow, pdBitStep, hr, List.foldl_cons, List.foldl_nil,
    ← Nat.shiftRight_add]

theorem pdRow_out_cp (x c : Nat) (out : List Nat) :
    (pdRow x c out).cp = cp8 x c := by
  have hr : List.range 8 = [0,1,2,3,4,5,6,7] := rfl
  simp only [pdRow, pdBitStep, cp8, hr, List.foldl_cons, List.foldl_nil,
    ← Nat.shiftRight_add]

/-- Closed form of the frame: four rows (rows 0–1 from `data_low` and
its 8-shift, rows 2–3 from `data_hi` and its 8-shift), the column
parity bytes, the trailing 0. -/
theorem Prepare_Data_eq (dl dh : Nat) :
    Prepare_Data dl dh =
      rowOut dl ++ rowOut (dl >>> 8) ++ rowOut dh ++ rowOut (dh >>> 8) ++
        colsOut (cp8 (dh >>> 8) (cp8 dh (cp8 (dl >>> 8) (cp8 dl 0)))) ++
        [0] := by
  have hr : List.range 8 = [0,1,2,3,4,5,6,7] := rfl
  simp only [Prepare_Data, pdRow_out_out, pdRow_out_data, pdRow_out_cp, hr,
    List.foldl_cons, List.foldl_nil, colsOut, List.append_assoc,
    List.cons_append, List.nil_append, ← Nat.shiftRight_add]

/-- Bit 0 of the row parity is the mod-2 sum of the row's 8 bits. -/
theorem lp8_mod2 (x : Nat) :
    lp8 x % 2 =
      (x % 2 + (x >>> 1) % 2 + (x >>> 2) % 2 + (x >>> 3) % 2 +
       (x >>> 4) % 2 + (x >>> 5) % 2 + (x >>> 6) % 2 + (x >>> 7) % 2) % 2 := by
  have hr : List.range 8 = [0,1,2,3,4,5,6,7] := rfl
  simp only [lp8, pdBitStep, hr, List.foldl_cons, List.foldl_nil]
  simp only [mod2_mod256, xor_mod_two]
  simp only [Nat.shiftRight_eq_div_pow, Nat.reducePow,
    Nat.div_div_eq_div_mul, Nat.reduceMul]
  omega

theorem testBit_mod256 (a j : Nat) :
    (a % 256).testBit j = (decide (j < 8) && a.testBit j) := by
  have h := Nat.testBit_mod_two_pow a 8 j
  norm_num at h
  exact h

theorem testBit_one (m : Nat) : (1 : Nat).testBit m = decide (0 = m) := by
  cases m with
  | zero => decide
  | succ k =>
      rw [Nat.testBit_to_div_mod]
      have h1 : (1:Nat) / 2^(k+1) = 0 :=
        Nat.div_eq_of_lt (Nat.one_lt_two_pow_iff.mpr (Nat.succ_ne_zero k))
      rw [h1]
      simp

/-- A 0/1 bit value as the `toNat` of the corresponding `testBit`. -/
theorem bit_toNat (a j : Nat) : (a >>> j) % 2 = (a.testBit j).toNat := by
  rw [Nat.testBit_to_div_mod, Nat.shiftRight_eq_div_pow]
  rcases Nat.mod_two_eq_zero_or_one (a / 2^j) with h | h <;> rw [h] <;> simp [h]

/-- Bit `j` of the column accumulator after one row is the incoming bit
`j` xor the row's bit `j` (the row's step `k` only touches bit `k`). -/
theorem cp8_testBit (x c j : Nat) (hj : j < 8) :
    (cp8 x c).testBit j = (c.testBit j ^^ x.testBit j) := by
  have hr : List.range 8 = [0,1,2,3,4,5,6,7] := rfl
  interval_cases j <;>
  · simp only [cp8, pdBitStep, hr, List.foldl_cons, List.foldl_nil]
    simp only [testBit_mod256, Nat.testBit_xor, Nat.testBit_shiftLeft,
      Nat.testBit_and, Nat.testBit_shiftRight, testBit_one,
      Nat.reduceLT, ge_iff_le, Nat.reduceLeDiff, Nat.reduceSub,
      Nat.reduceAdd, Nat.add_zero, Nat.reduceEqDiff, decide_True,
      decide_False, Bool.true_and, Bool.false_and, Bool.and_true,
      Bool.and_false, Bool.xor_false, Bool.false_xor]

/-- `%2` form of `cp8_testBit`. -/
theorem cp8_bit (x c j : Nat) (hj : j < 8) :
    (cp8 x c >>> j) % 2 = ((c >>> j) % 2 + (x >>> j) % 2) % 2 := by
  rw [bit_toNat, bit_toNat, bit_toNat, cp8_testBit x c j hj]
  cases c.testBit j <;> cases x.testBit j <;> rfl

/-- Bit 0 variant of `cp8_bit`. -/
theorem cp8_mod2 (x c : Nat) :
    cp8 x c % 2 = (c % 2 + x % 2) % 2 := by
  have h := cp8_bit x c 0 (by norm_num)
  simp only [Nat.shiftRight_zero] at h
  exact h

/-- C4 (amended).  For every 32-bit data word `d` framed by
`Prepare_Data(d & 0xFFFF, d >> 16)`: the frame transmits 45 bits — four
8-bit rows (row `i`, bit `j` carrying data bit `8*i+j`, LSB first) each
immediately followed by a row-parity bit equal to the XOR (mod-2 sum) of
its 8 row bits, then 8 column-parity bits where column parity `j` equals
the XOR of bit `j` across the 4 rows, then a trailing 0.  Data 0 yields
all bits 0; data `0xFFFFFFFF` yields all row bits 1 with all four row
parities 0 (eight is even) and all eight column parities 0 (four is
even). -/
theorem Prepare_Data_parity (d : Nat) (_hd : d < 2^32) :
    (pdBits (d % 65536) (d / 65536)).length = 45 ∧
    (∀ i, i < 4 → ∀ j, j < 8 →
      (pdBits (d % 65536) (d / 65536)).getD (9*i + j) 0 =
        d / 2^(8*i + j) % 2) ∧
    (∀ i, i < 4 →
      (pdBits (d % 65536) (d / 65536)).getD (9*i + 8) 0 =
        ((pdBits (d % 65536) (d / 65536)).getD (9*i) 0 +
         (pdBits (d % 65536) (d / 65536)).getD (9*i + 1) 0 +
         (pdBits (d % 65536) (d / 65536)).getD (9*i + 2) 0 +
         (pdBits (d % 65536) (d / 65536)).getD (9*i + 3) 0 +
         (pdBits (d % 65536) (d / 65536)).getD (9*i + 4) 0 +
         (pdBits (d % 65536) (d / 65536)).getD (9*i + 5) 0 +
         (pdBits (d % 65536) (d / 65536)).getD (9*i + 6) 0 +
         (pdBits (d % 65536) (d / 65536)).getD (9*i + 7) 0) % 2) ∧
    (∀ j, j < 8 →
      (pdBits (d % 65536) (d / 65536)).getD (36 + j) 0 =
        ((pdBits (d % 65536) (d / 65536)).getD j 0 +
         (pdBits (d % 65536) (d / 65536)).getD (9 + j) 0 +
         (pdBits (d % 65536) (d / 65536)).getD (18 + j) 0 +
         (pdBits (d % 65536) (d / 65536)).getD (27 + j) 0) % 2) ∧
    pdBits 0 0 = List.replicate 45 0 ∧
    pdBits 65535 65535 =
      [1,1,1,1,1,1,1,1,0, 1,1,1,1,1,1,1,1,0, 1,1,1,1,1,1,1,1,0,
       1,1,1,1,1,1,1,1,0, 0,0,0,0,0,0,0,0, 0] := by
  refine ⟨?_, ?_, ?_, ?_, by decide, by decide⟩
  · simp [pdBits, Prepare_Data_eq, rowOut, colsOut]
  · intro i hi j hj
    interval_cases i <;> interval_cases j <;>
    · simp only [pdBits, Prepare_Data_eq, rowOut, colsOut, List.map_append,
        List.map_cons, List.map_nil, List.append_assoc, List.cons_append,
        List.nil_append, Nat.reduceMul, Nat.reduceAdd, List.getD_cons_zero,
        List.getD_cons_succ]
      simp only [mod2_mod256]
      simp only [Nat.shiftRight_eq_div_pow, Nat.reducePow,
        Nat.div_div_eq_div_mul, Nat.reduceMul]
      all_goals omega
  · intro i hi
    interval_cases i <;>
    · simp only [pdBits, Prepare_Data_eq, rowOut, colsOut, List.map_append,
        List.map_cons, List.map_nil, List.append_assoc, List.cons_append,
        List.nil_append, Nat.reduceMul, Nat.reduceAdd, List.getD_cons_zero,
        List.getD_cons_succ]
      simp only [lp8_mod2, mod2_mod256]
  · intro j hj
    interval_cases j <;>
    · simp only [pdBits, Prepare_Data_eq, rowOut, colsOut, List.map_append,
        List.map_cons, List.map_nil, List.append_assoc, List.cons_append,
        List.nil_append, Nat.reduceMul, Nat.reduceAdd, List.getD_cons_zero,
        List.getD_cons_succ]
      simp only [cp8_bit, cp8_mod2, Nat.reduceLT, mod2_mod256,
        Nat.zero_shiftRight, Nat.zero_mod]
      all_goals omega

/-- Witness for C4 at `d = 0x12345678`: row 0's parity bit equals the
mod-2 sum of its row bits. -/
theorem Prepare_Data_parity_witness :
    (pdBits (0x12345678 % 65536) (0x12345678 / 65536)).getD 8 0 =
      ((pdBits (0x12345678 % 65536) (0x12345678 / 65536)).getD 0 0 +
       (pdBits (0x12345678 % 65536) (0x12345678 / 65536)).getD 1 0 +
       (pdBits (0x12345678 % 65536) (0x12345678 / 65536)).getD 2 0 +
       (pdBits (0x12345678 % 65536) (0x12345678 / 65536)).getD 3 0 +
       (pdBits (0x12345678 % 65536) (0x12345678 / 65536)).getD 4 0 +
       (pdBits (0x12345678 % 65536) (0x12345678 / 65536)).getD 5 0 +
       (pdBits (0x12345678 % 65536) (0x12345678 / 65536)).getD 6 0 +
       (pdBits (0x12345678 % 65536) (0x12345678 / 65536)).getD 7 0) % 2 := by
  have h := Prepare_Data_parity 0x12345678 (by norm_num)
  have h0 := h.2.2.1 0 (by norm_num)
  norm_num at h0
  exact h0

/-! ### T55x7/Q5 configuration constants and clock table

The constants and the two helpers below are defined by the repository
outside this file (protocols.h / utilities), so they are modelled from
the specification. -/

def T55x7_BITRATE_RF_8   : Nat := 0x00000000
def T55x7_BITRATE_RF_16  : Nat := 0x00040000
def T55x7_BITRATE_RF_32  : Nat := 0x00080000
def T55x7_BITRATE_RF_40  : Nat := 0x000C0000
def T55x7_BITRATE_RF_50  : Nat := 0x00100000
def T55x7_BITRATE_RF_64  : Nat := 0x00140000
def T55x7_BITRATE_RF_100 : Nat := 0x00180000
def T55x7_BITRATE_RF_128 : Nat := 0x001C0000
def T55x7_MODULATION_MANCHESTER : Nat := 0x00008000
def T55x7_MODULATION_FSK2a : Nat := 0x00007000
def T55x7_MAXBLOCK_SHIFT : Nat := 5
def T5555_MODULATION_MANCHESTER : Nat := 0x00000000
def T5555_MAXBLOCK_SHIFT : Nat := 15

/-- Modelled from the spec: the T55x7 "clock-rate table keyed by a
caller-supplied code" — the supported bit rates map to their
configuration-word bit-rate fields, every other code to the 0 sentinel
(the function lives outside this file). -/
def GetT55xxClockBit (clock : Nat) : Nat :=
  if clock = 128 then T55x7_BITRATE_RF_128
  else if clock = 100 then T55x7_BITRATE_RF_100
  else if clock = 64 then T55x7_BITRATE_RF_64
  else if clock = 50 then T55x7_BITRATE_RF_50
  else if clock = 40 then T55x7_BITRATE_RF_40
  else if clock = 32 then T55x7_BITRATE_RF_32
  else if clock = 16 then T55x7_BITRATE_RF_16
  else if clock = 8 then T55x7_BITRATE_RF_8
  else 0

def T5555_BITRATE_SHIFT : Nat := 12

/-- Modelled from the spec: the Q5 bit-rate field of the configuration
word for a clock of `2n+2` cycles (helper macro outside this file). -/
def T5555_SET_BITRATE (x : Nat) : Nat := ((x - 2) / 2) <<< T5555_BITRATE_SHIFT

/-- Modelled from the spec: Manchester encoding of the low 16 bits of
`x`, MSB first, one `10`/`01` pair per bit (helper outside this file). -/
def manchesterEncode2Bytes (x : Nat) : Nat :=
  (List.range 16).foldl
    (fun acc k =>
      let b := (x >>> (15 - k)) &&& 1
      acc * 4 + (b * 2 + (1 - b))) 0

/-! ### HID simulation encoder (`fc`, `CmdHIDsimTAG`) -/

/-- The `fc(c, &n)` sample patterns: the filler (`c = 0`, one fc/8
half-pattern), an fc/8 symbol (six 11110000 waves), an fc/10 symbol
(five 1111100000 waves); any other argument emits nothing. -/
def fcPattern (c : Nat) : List Nat :=
  if c = 0 then [1,1,1,1,0,0,0,0]
  else if c = 8 then (List.replicate 6 [1,1,1,1,0,0,0,0]).flatten
  else if c = 10 then (List.replicate 5 [1,1,1,1,1,0,0,0,0,0]).flatten
  else []

/-- One Manchester-coded HID bit: 1 is fc10 then fc8 (low-high), 0 is
fc8 then fc10 (high-low). -/
def hidManchesterBit (b : Nat) : List Nat :=
  if b ≠ 0 then fcPattern 10 ++ fcPattern 8 else fcPattern 8 ++ fcPattern 10

/-- Manchester-encode bits `n-1 … 0` of `x` MSB first, inserting the
fc8 filler before every bit whose index is 3 mod 4. -/
def hidChunk (x n : Nat) : List Nat :=
  ((List.range n).reverse.map
    (fun i =>
      (if i % 4 = 3 then fcPattern 0 else []) ++
        hidManchesterBit ((x >>> i) &&& 1))).flatten

/-- `CmdHIDsimTAG(hi2, hi, lo, …)` up to the point of handing the buffer
to the simulator: `none` when the 84-bit limit check fails (abort before
any emission), otherwise the composed waveform — filler, the invalid
start-of-frame marker, and the Manchester-coded ID (the long layout when
`hi2 > 0` or `hi` exceeds 12 bits). -/
def CmdHIDsimTAG_build (hi2 hi lo : Nat) : Option (List Nat) :=
  if hi2 > 0x0FFFFFFF then none
  else some (
    fcPattern 0 ++
    fcPattern 8 ++ fcPattern 8 ++ fcPattern 8 ++ fcPattern 10 ++
    fcPattern 10 ++ fcPattern 10 ++ fcPattern 8 ++ fcPattern 10 ++
    (if hi2 > 0 ∨ hi > 0xFFF then hidChunk hi2 28 ++ hidChunk hi 32
     else hidChunk hi 12) ++
    hidChunk lo 32)

/-- `CopyHIDtoT55x7(hi2, hi, lo, longFMT, preamble)` as the list of
`(address, data)` block writes it issues through `WriteT55xx` (empty
when the 84-bit / 44-bit validation aborts the operation). -/
def CopyHIDtoT55x7 (hi2 hi lo : Nat) (longFMT : Bool) (preamble : Nat) :
    List (Nat × Nat) :=
  if longFMT then
    if hi2 > 0xFFFFF then []
    else
      let data := [T55x7_BITRATE_RF_50 ||| T55x7_MODULATION_FSK2a |||
                     (6 <<< T55x7_MAXBLOCK_SHIFT),
                   (preamble <<< 24) ||| 0x96A900 |||
                     (manchesterEncode2Bytes ((hi2 >>> 16) &&& 0xF) &&& 0xFF),
                   manchesterEncode2Bytes (hi2 &&& 0xFFFF),
                   manchesterEncode2Bytes (hi >>> 16),
                   manchesterEncode2Bytes (hi &&& 0xFFFF),
                   manchesterEncode2Bytes (lo >>> 16),
                   manchesterEncode2Bytes (lo &&& 0xFFFF)]
      (WriteT55xx_addrs 0 7).map (fun a => (a, data.getD a 0))
  else
    if hi > 0xFFF then []
    else
      let data := [T55x7_BITRATE_RF_50 ||| T55x7_MODULATION_FSK2a |||
                     (3 <<< T55x7_MAXBLOCK_SHIFT),
                   (preamble <<< 24) ||| (manchesterEncode2Bytes hi &&& 0xFFFFFF),
                   manchesterEncode2Bytes (lo >>> 16),
                   manchesterEncode2Bytes (lo &&& 0xFFFF)]
      (WriteT55xx_addrs 0 4).map (fun a => (a, data.getD a 0))

/-! ### EM410x writer (`WriteEM410x`) -/

/-- The ID-reversal loop of `WriteEM410x`: 32 bits taken LSB-first from
`id_lo`, then 8 bits LSB-first from `id_hi`. -/
def em410xRevId (id_hi id_lo : Nat) : Nat :=
  let s1 := (List.range 32).foldl
    (fun (p : Nat × Nat) _ => ((p.1 <<< 1) ||| (p.2 &&& 1), p.2 >>> 1))
    (0, id_lo)
  let s2 := (List.range 8).foldl
    (fun (p : Nat × Nat) _ => ((p.1 <<< 1) ||| (p.2 &&& 1), p.2 >>> 1))
    (s1.1, id_hi)
  s2.1

/-- The framing loop of `WriteEM410x` applied to the reversed ID: the
9-bit header `0x1FF`, then per bit the row-parity insertion at each
4-bit boundary, the column-parity accumulation, the bit itself; finally
the last row parity, the 4 column parities and the stop bit. -/
def em410xFrameOfRev (rev0 : Nat) : Nat :=
  let s := (List.range 40).foldl
    (fun (st : Nat × Nat × Nat × List Nat) i =>
      let id := st.1
      let rev := st.2.1
      let rp := st.2.2.1
      let cp := st.2.2.2
      let id_bit := rev &&& 1
      let idrp :=
        if i % 4 = 0 then (if i ≠ 0 then (id <<< 1) ||| rp else id, id_bit)
        else (id, rp ^^^ id_bit)
      let cp1 :=
        if i < 4 then cp.set i id_bit
        else cp.set (i % 4) ((cp.getD (i % 4) 0) ^^^ id_bit)
      ((idrp.1 <<< 1) ||| id_bit, rev >>> 1, idrp.2, cp1))
    (0x1FF, rev0, 0, [0,0,0,0])
  let id2 := (s.1 <<< 1) ||| s.2.2.1
  let cp := s.2.2.2
  let id3 := ((((id2 <<< 1) ||| cp.getD 0 0) <<< 1 ||| cp.getD 1 0) <<< 1 |||
      cp.getD 2 0) <<< 1 ||| cp.getD 3 0
  id3 <<< 1

/-- The 64-bit EM410x pattern built by `WriteEM410x` for a given ID. -/
def em410xFrame (id_hi id_lo : Nat) : Nat :=
  em410xFrameOfRev (em410xRevId id_hi id_lo)

/-- The clock-rate resolution of `WriteEM410x`: the code is the second
byte of `card`, and code 0 is replaced by 64. -/
def em410xClock (card : Nat) : Nat :=
  let clock := (card &&& 0xFF00) >>> 8
  if clock = 0 then 64 else clock

/-- Result of `WriteEM410x`: the `(address, data)` block writes issued
through `WriteT55xx`, and whether the operation returned early on an
unsupported clock rate. -/
structure EM410xResult where
  blocks : List (Nat × Nat)
  aborted : Bool
  deriving DecidableEq, Repr

/-- `WriteEM410x(card, id_hi, id_lo)`: build the 64-bit pattern, pick
the clock, and either write the Q5 configuration plus the two ID blocks
(low card byte 0), or — for a T55x7 — look the clock up in the table and
return with no writes when the lookup yields 0. -/
def WriteEM410x (card id_hi id_lo : Nat) : EM410xResult :=
  let id := em410xFrame id_hi id_lo
  let clock := em410xClock card
  if card &&& 0xFF ≠ 0 then
    let clockbits := GetT55xxClockBit clock
    if clockbits = 0 then { blocks := [], aborted := true }
    else
      let data := [clockbits ||| T55x7_MODULATION_MANCHESTER |||
                     (2 <<< T55x7_MAXBLOCK_SHIFT),
                   (id >>> 32) % 2^32, id % 2^32]
      { blocks := (WriteT55xx_addrs 0 3).map (fun a => (a, data.getD a 0)),
        aborted := false }
  else
    let data := [T5555_SET_BITRATE clock ||| T5555_MODULATION_MANCHESTER |||
                   (2 <<< T5555_MAXBLOCK_SHIFT),
                 (id >>> 32) % 2^32, id % 2^32]
    { blocks := (WriteT55xx_addrs 0 3).map (fun a => (a, data.getD a 0)),
      aborted := false }

/-! ### Theorems for claims C7 and C10 -/

set_option maxRecDepth 4000 in
/-- C7 counterexample.  `WriteEM410x` performs no ID-width validation:
for a T55x7 card with the default clock, a 41-bit ID (`id_hi = 0x100`)
is not rejected — the write proceeds, and the blocks written are
identical to those for the truncated ID (`id_hi = 0`), the excess bit
being silently dropped. -/
theorem encoder_width_claim_false :
    (WriteEM410x 1 0x100 0).aborted = false ∧
    (WriteEM410x 1 0x100 0).blocks ≠ [] ∧
    (WriteEM410x 1 0x100 0).blocks = (WriteEM410x 1 0 0).blocks := by
  decide

theorem em410xRevId_mod (id_hi id_lo : Nat) :
    em410xRevId id_hi id_lo = em410xRevId (id_hi % 256) id_lo := by
  have hr : List.range 8 = [0,1,2,3,4,5,6,7] := rfl
  unfold em410xRevId
  simp only [hr, List.foldl_cons, List.foldl_nil, Nat.and_one_is_mod,
    ← Nat.shiftRight_add, Nat.reduceAdd]
  simp only [bitj_mod256, mod2_mod256, Nat.reduceLT]

/-- C7 (amended).  The HID encoders validate the declared ID width and
abort before any emission when it is exceeded (`CmdHIDsimTAG`: 28 extra
bits beyond 84 rejected; `CopyHIDtoT55x7`: 84-bit and 44-bit limits,
with no block written on failure).  The EM410x writer performs NO width
validation: bits of `id_hi` beyond the 40-bit format are silently
ignored (the frame only depends on `id_hi mod 256`), and the only abort
condition of `WriteEM410x` is an unsupported clock rate.  (The Indala
and Viking encoders take exact-width arguments and have no check.) -/
theorem encoder_width_validation (hi2 hi lo id_hi id_lo card p : Nat) :
    (hi2 > 0x0FFFFFFF → CmdHIDsimTAG_build hi2 hi lo = none) ∧
    (hi2 ≤ 0x0FFFFFFF → CmdHIDsimTAG_build hi2 hi lo ≠ none) ∧
    (hi2 > 0xFFFFF → CopyHIDtoT55x7 hi2 hi lo true p = []) ∧
    (hi > 0xFFF → CopyHIDtoT55x7 hi2 hi lo false p = []) ∧
    em410xFrame id_hi id_lo = em410xFrame (id_hi % 256) id_lo ∧
    ((WriteEM410x card id_hi id_lo).aborted = true ↔
      card &&& 0xFF ≠ 0 ∧ GetT55xxClockBit (em410xClock card) = 0) := by
  refine ⟨?_, ?_, ?_, ?_, ?_, ?_⟩
  · intro h
    simp [CmdHIDsimTAG_build, h]
  · intro h
    simp [CmdHIDsimTAG_build, Nat.not_lt.mpr h]
  · intro h
    simp [CopyHIDtoT55x7, h]
  · intro h
    simp [CopyHIDtoT55x7, h]
  · unfold em410xFrame
    rw [em410xRevId_mod]
  · by_cases hc : card &&& 0xFF = 0
    · simp [WriteEM410x, hc]
    · by_cases hck : GetT55xxClockBit (em410xClock card) = 0
      · simp [WriteEM410x, hc, hck]
      · simp [WriteEM410x, hc, hck]

/-- Witness for C7: an 85-bit HID ID is rejected by the simulator, and a
45-bit ID is rejected by the short-format cloner with no block
written. -/
theorem encoder_width_validation_witness :
    CmdHIDsimTAG_build 0x10000000 0x1000 0 = none ∧
    CopyHIDtoT55x7 0x10000000 0x1000 0 false 0x1D = [] := by
  have h := encoder_width_validation 0x10000000 0x1000 0 0 0 1 0x1D
  exact ⟨h.1 (by decide), h.2.2.2.1 (by decide)⟩

/-- C10.  In `WriteEM410x`, a caller-supplied clock-rate code of 0 is
silently replaced by 64 before the clock-table lookup; and on the T55x7
path, when the lookup fails the operation returns before any block is
written, while on success exactly the three blocks are written. -/
theorem WriteEM410x_clock_handling (card id_hi id_lo : Nat) :
    ((card &&& 0xFF00) >>> 8 = 0 → em410xClock card = 64) ∧
    (card &&& 0xFF ≠ 0 → GetT55xxClockBit (em410xClock card) = 0 →
      WriteEM410x card id_hi id_lo = { blocks := [], aborted := true }) ∧
    (card &&& 0xFF ≠ 0 → GetT55xxClockBit (em410xClock card) ≠ 0 →
      (WriteEM410x card id_hi id_lo).aborted = false ∧
      (WriteEM410x card id_hi id_lo).blocks.length = 3) := by
  refine ⟨?_, ?_, ?_⟩
  · intro h
    simp [em410xClock, h]
  · intro h1 h2
    simp [WriteEM410x, h1, h2]
  · intro h1 h2
    constructor
    · simp [WriteEM410x, h1, h2]
    · simp [WriteEM410x, h1, h2, List.length_map]
      rfl

/-- Witness for C10: card word `0x0101` asks for clock-rate code 1,
which is not in the table, so the write aborts with no blocks. -/
theorem WriteEM410x_clock_handling_witness :
    WriteEM410x 0x0101 0x12 0x34567890 = { blocks := [], aborted := true } := by
  have h := WriteEM410x_clock_handling 0x0101 0x12 0x34567890
  exact h.2.1 (by decide) (by decide)

/-! ### Field traces of the operations (claims C5 and C6) -/

/-- Modelled from the spec: `LFSetupFPGAForADC(divisor, field)` — the
antenna-driver setup ("power on" at its call sites): it configures LF
ADC mode, driving the reader field when the second argument is set.
The function lives outside this file. -/
def LFSetupFPGAForADC (reader_field : Bool) : List FieldEv :=
  [FieldEv.conf
    (if reader_field then FpgaMode.adcReaderField else FpgaMode.adc)]

/-- The 32 password-bit transmissions (`for (i = 0x80000000; i != 0;
i >>= 1) T55xxWriteBit(Pwd & i);`). -/
def pwdBitEvents (Pwd : Nat) : List FieldEv :=
  ((List.range 32).map (fun k => T55xxWriteBit (Pwd &&& (2^(31-k))))).flatten

/-- `T55xxResetRead`: power up, start gap, the two opcode-0 bits, the
read window with acquisition, field off. -/
def T55xxResetRead : List FieldEv :=
  LFSetupFPGAForADC true ++ [FieldEv.wait 5000] ++
  [FieldEv.conf FpgaMode.off, FieldEv.wait START_GAP] ++
  T55xxWriteBit 0 ++ T55xxWriteBit 0 ++
  TurnReadLFOn READ_GAP ++
  [FieldEv.acq, FieldEv.conf FpgaMode.off]

/-- `T55xxWriteBlockExt(Data, Block, Pwd, arg)`: power up, start gap,
opcode (or test-mode opcode), optional password, lock bit 0, the 32 data
bits, the 3 block-address bits, the program-settle window (5184 µs in
test mode, 20 ms otherwise), field off. -/
def T55xxWriteBlockExt (Data Block Pwd arg : Nat) : List FieldEv :=
  let testMode := arg &&& 4 ≠ 0
  LFSetupFPGAForADC true ++ [FieldEv.wait 5000] ++
  [FieldEv.conf FpgaMode.off, FieldEv.wait START_GAP] ++
  T55xxWriteBit (if testMode then 0 else 1) ++
  T55xxWriteBit (if testMode then 1 else (arg &&& 2) >>> 1) ++
  (if arg &&& 1 = 1 then pwdBitEvents Pwd else []) ++
  T55xxWriteBit 0 ++
  ((List.range 32).map (fun k => T55xxWriteBit (Data &&& (2^(31-k))))).flatten ++
  (T55xxWriteBit (Block &&& 4) ++ T55xxWriteBit (Block &&& 2) ++
    T55xxWriteBit (Block &&& 1)) ++
  (if testMode then TurnReadLFOn 5184 else TurnReadLFOn 20000) ++
  [FieldEv.conf FpgaMode.off]

/-- `T55xxReadBlock(arg0, Block, Pwd)`: power up, start gap, the bit
sequence of `T55xxReadBlock_bits`, the read window, acquisition, field
off. -/
def T55xxReadBlock_trace (arg0 Block Pwd : Nat) : List FieldEv :=
  LFSetupFPGAForADC true ++ [FieldEv.wait 5000] ++
  [FieldEv.conf FpgaMode.off, FieldEv.wait START_GAP] ++
  ((T55xxReadBlock_bits arg0 Block Pwd).map T55xxWriteBit).flatten ++
  TurnReadLFOn (210*8) ++
  [FieldEv.acq, FieldEv.conf FpgaMode.off]

/-- `T55xxWakeUp(Pwd)`: power up, start gap, opcode 10, the password,
then `TurnReadLFOn(20*1000)` — the field is deliberately LEFT ON so the
tag keeps transmitting; the function returns without switching it
off. -/
def T55xxWakeUp (Pwd : Nat) : List FieldEv :=
  LFSetupFPGAForADC true ++ [FieldEv.wait 5000] ++
  [FieldEv.conf FpgaMode.off, FieldEv.wait START_GAP] ++
  T55xxWriteBit 1 ++ T55xxWriteBit 0 ++
  pwdBitEvents Pwd ++
  TurnReadLFOn 20000

/-- The `ON(x)`/`OFF` macros of `Cotag`. -/
def cotagON (x : Nat) : List FieldEv :=
  [FieldEv.conf FpgaMode.adcReaderField, FieldEv.wait x]

def cotagOFF : List FieldEv :=
  [FieldEv.conf FpgaMode.off, FieldEv.wait 2035]

/-- `Cotag(arg0)`: field on at 132 kHz, the 4-pulse wake sequence, the
mode-selected acquisition (none for mode values above 2), field off. -/
def Cotag (arg0 : Nat) : List FieldEv :=
  [FieldEv.conf FpgaMode.adcReaderField] ++
  cotagON 740 ++ cotagOFF ++
  cotagON 3330 ++ cotagOFF ++
  cotagON 740 ++ cotagOFF ++
  cotagON 1000 ++
  (if arg0 &&& 0xF < 3 then [FieldEv.acq] else []) ++
  [FieldEv.conf FpgaMode.off]

/-- The simulation loop of `SimulateTagLowFrequency`, at the granularity
of clock half-cycles: while waiting for each clock edge the cancellation
signal is polled, and when it fires (the fuel runs out) the FPGA is set
to `off` and the function returns; otherwise the coil follows `tab[i]`
and the index wraps at `period` (optionally shorting the coil for
`gap`). -/
def simLoop (tab : List Nat) (period gap : Nat) : Nat → Nat → List FieldEv
  | _, 0 => [FieldEv.conf FpgaMode.off]
  | i, fuel+1 =>
      FieldEv.coil (tab.getD i 0 ≠ 0) ::
      (if i + 1 = period then
        (if gap ≠ 0 then [FieldEv.coil false, FieldEv.wait gap] else []) ++
          simLoop tab period gap 0 fuel
      else simLoop tab period gap (i + 1) fuel)

/-- `SimulateTagLowFrequency(period, gap, _)` on buffer `tab`, cancelled
after `cancel` half-cycles. -/
def SimulateTagLowFrequency (tab : List Nat) (period gap cancel : Nat) :
    List FieldEv :=
  FieldEv.conf FpgaMode.edgeDetect :: simLoop tab period gap 0 cancel

/-! EM4205/4305/4469 forward-link operations. -/

def FWD_CMD_LOGIN : Nat := 0xC
def FWD_CMD_WRITE : Nat := 0xA
def FWD_CMD_READ : Nat := 0x9
def FWD_CMD_DISABLE : Nat := 0x5
def FWD_CMD_PROTECT : Nat := 0x3

/-- `Prepare_Cmd(cmd)`: start bit, pause bit, the 4 mirrored command
bits (6 cells). -/
def Prepare_Cmd (cmd : Nat) : List Nat :=
  [0, 0, cmd, cmd >>> 1, cmd >>> 2, cmd >>> 3]

/-- `Prepare_Addr(addr)`: the 6 address bits LSB first, then the line
parity bit (7 cells). -/
def Prepare_Addr (addr : Nat) : List Nat :=
  let lp := ((((((0 ^^^ addr) % 256 ^^^ (addr >>> 1)) % 256 ^^^
      (addr >>> 2)) % 256 ^^^ (addr >>> 3)) % 256 ^^^
      (addr >>> 4)) % 256 ^^^ (addr >>> 5)) % 256
  [addr % 256, (addr >>> 1) % 256, (addr >>> 2) % 256, (addr >>> 3) % 256,
   (addr >>> 4) % 256, (addr >>> 5) % 256, lp &&& 1]

/-- `SendForward(fwd_bit_count)` on the prepared cells: the first cell
is consumed as the extended start gap (55·8 µs off, 18·8 µs on); then
each remaining cell with low bit 1 extends the field-on hold by 32·8 µs,
and each 0 cell is a 23·8 µs field-off pulse followed by an 18·8 µs
field-on hold. -/
def SendForward (bits : List Nat) : List FieldEv :=
  LFSetupFPGAForADC true ++
  [FieldEv.conf FpgaMode.off, FieldEv.wait (55*8),
   FieldEv.conf FpgaMode.adcReaderField, FieldEv.wait (18*8)] ++
  ((bits.drop 1).map (fun b =>
    if b &&& 1 = 1 then [FieldEv.wait (32*8)]
    else [FieldEv.conf FpgaMode.off, FieldEv.wait (23*8),
          FieldEv.conf FpgaMode.adcReaderField, FieldEv.wait (18*8)])).flatten

/-- `EM4xLogin(Password)`: send the login command with the password
data frame, then a 20 ms settle. -/
def EM4xLogin (Password : Nat) : List FieldEv :=
  SendForward (Prepare_Cmd FWD_CMD_LOGIN ++
    Prepare_Data (Password &&& 0xFFFF) (Password >>> 16)) ++
  [FieldEv.wait 20000]

/-- `EM4xReadWord(Address, Pwd, PwdMode)`: optional login, the read
command and address, a 400 µs settle, acquisition, field off. -/
def EM4xReadWord (Address Pwd PwdMode : Nat) : List FieldEv :=
  (if PwdMode = 1 then EM4xLogin Pwd else []) ++
  SendForward (Prepare_Cmd FWD_CMD_READ ++ Prepare_Addr Address) ++
  [FieldEv.wait 400, FieldEv.acq, FieldEv.conf FpgaMode.off]

/-- `EM4xWriteWord(flag, Data, Pwd)`: optional login, the write command,
address and data frame, a 6.5 ms settle, acquisition, field off. -/
def EM4xWriteWord (flag Data Pwd : Nat) : List FieldEv :=
  (if flag &&& 1 ≠ 0 then EM4xLogin Pwd else []) ++
  SendForward (Prepare_Cmd FWD_CMD_WRITE ++
    Prepare_Addr ((flag >>> 8) &&& 0xFF) ++
    Prepare_Data (Data &&& 0xFFFF) (Data >>> 16)) ++
  [FieldEv.wait 6500, FieldEv.acq, FieldEv.conf FpgaMode.off]

/-- `EM4xProtect(flag, Data, Pwd)`: like a write but with no address
sub-frame. -/
def EM4xProtect (flag Data Pwd : Nat) : List FieldEv :=
  (if flag &&& 1 ≠ 0 then EM4xLogin Pwd else []) ++
  SendForward (Prepare_Cmd FWD_CMD_PROTECT ++
    Prepare_Data (Data &&& 0xFFFF) (Data >>> 16)) ++
  [FieldEv.wait 6500, FieldEv.acq, FieldEv.conf FpgaMode.off]

/-! `ModThenAcquireRawAdcSamples125k`. -/

/-- Result of `ModThenAcquireRawAdcSamples125k`: its field trace,
whether the timing warning was printed, and whether the acquisition was
reached. -/
structure ModAcqResult where
  trace : List FieldEv
  warned : Bool
  acquired : Bool
  deriving DecidableEq, Repr

/-- The bit-bang modulation loop: a `'0'` turns the field off (when not
already off) and waits `period_0 - 7`; anything else turns it on (when
off) and waits `period_1 - 7` (7 µs being the measured switchover
cost; the guard in the caller keeps both subtractions from
underflowing). -/
def bitbangLoop (p0 p1 : Nat) : List Char → Bool → List FieldEv
  | [], _ => []
  | c :: rest, off =>
      if c = '0' then
        (if off = false then [FieldEv.conf FpgaMode.off] else []) ++
          [FieldEv.wait (p0 - 7)] ++ bitbangLoop p0 p1 rest true
      else
        (if off then [FieldEv.conf FpgaMode.adcReaderField] else []) ++
          [FieldEv.wait (p1 - 7)] ++ bitbangLoop p0 p1 rest false

/-- The old-mode modulation loop: per command character, field off for
`delay_off`, then field on for the character-selected period. -/
def oldModeLoop (delay_off p0 p1 : Nat) : List Char → List FieldEv
  | [] => []
  | c :: rest =>
      [FieldEv.conf FpgaMode.off, FieldEv.wait delay_off,
       FieldEv.conf FpgaMode.adcReaderField,
       FieldEv.wait (if c = '0' then p0 else p1)] ++
        oldModeLoop delay_off p0 p1 rest

/-- `ModThenAcquireRawAdcSamples125k(delay_off, period_0, period_1,
command)`: reset the tag (2.5 s field off), power it up
(`LFSetupFPGAForADC(divisor, 1)`, 2 s on), then — in bit-bang mode
(`delay_off == 0`) — EITHER warn and return with the field off when a
period is under the 7 µs switchover latency, or modulate; in old mode,
modulate with `delay_off` off-periods.  On the non-aborting paths the
field is turned on, the acquisition runs, and the field goes off. -/
def ModThenAcquireRawAdcSamples125k (delay_off period_0 period_1 : Nat)
    (command : List Char) : ModAcqResult :=
  let pre : List FieldEv :=
    [FieldEv.conf FpgaMode.off, FieldEv.wait 2500000] ++
    LFSetupFPGAForADC true ++ [FieldEv.wait 2000000]
  let cmd := command.takeWhile (fun c => ¬ (c = '\x00' ∨ c = ' '))
  if delay_off = 0 then
    if period_0 < 7 ∨ period_1 < 7 then
      { trace := pre ++ [FieldEv.conf FpgaMode.off],
        warned := true, acquired := false }
    else
      { trace := pre ++ bitbangLoop period_0 period_1 cmd false ++
          [FieldEv.conf FpgaMode.adcReaderField, FieldEv.acq,
           FieldEv.conf FpgaMode.off],
        warned := false, acquired := true }
  else
    { trace := pre ++ oldModeLoop delay_off period_0 period_1 cmd ++
        [FieldEv.conf FpgaMode.off, FieldEv.wait delay_off] ++
        [FieldEv.conf FpgaMode.adcReaderField, FieldEv.acq,
         FieldEv.conf FpgaMode.off],
      warned := false, acquired := true }

/-! ### Theorems for claim C5 -/

/-- If the second part of a concatenation ends with a configuration
word, so does the concatenation. -/
theorem lastConf_append_eq (a b : List FieldEv) (m : FpgaMode)
    (h : lastConf b = some m) : lastConf (a ++ b) = some m := by
  rw [lastConf_append, h]

/-- Every cancellation point of the simulation loop switches the FPGA
off before returning. -/
theorem simLoop_lastConf (tab : List Nat) (period gap : Nat) (fuel : Nat) :
    ∀ i, lastConf (simLoop tab period gap i fuel) = some FpgaMode.off := by
  induction fuel with
  | zero => intro i; rfl
  | succ f ih =>
      intro i
      simp only [simLoop, lastConf]
      split
      · split
        · rw [lastConf_append, ih 0]
        · exact ih 0
      · exact ih (i + 1)

/-- C5 counterexample.  `T55xxWakeUp` returns control with the reader
field still driven (its final action is `TurnReadLFOn(20*1000)`, by
design, to keep the woken tag transmitting) — so not every operation
returns with the field off. -/
theorem field_off_claim_false :
    lastConf (T55xxWakeUp 0x51243648) = some FpgaMode.adcReaderField ∧
    ¬ lastConf (T55xxWakeUp 0x51243648) = some FpgaMode.off := by
  decide

/-- C5 (amended).  Every modeled operation returns with the antenna
field off on every outcome — `ModThenAcquireRawAdcSamples125k` (both
modes and the timing abort), `T55xxResetRead`, `T55xxWriteBlockExt`,
`T55xxReadBlock`, `SimulateTagLowFrequency` (every cancellation point),
`Cotag` (every mode), and the EM4x forward-link operations — with the
single exception of `T55xxWakeUp`, which deliberately leaves the field
on to keep the tag transmitting. -/
theorem field_off_on_return
    (d p0 p1 : Nat) (cmd : List Char) (Data Block Pwd arg arg0 B2 P2 : Nat)
    (tab : List Nat) (period gap cancel : Nat)
    (Addr Pwd2 PwdMode flag D2 P3 c0 : Nat) :
    lastConf (ModThenAcquireRawAdcSamples125k d p0 p1 cmd).trace =
      some FpgaMode.off ∧
    lastConf T55xxResetRead = some FpgaMode.off ∧
    lastConf (T55xxWriteBlockExt Data Block Pwd arg) = some FpgaMode.off ∧
    lastConf (T55xxReadBlock_trace arg0 B2 P2) = some FpgaMode.off ∧
    lastConf (SimulateTagLowFrequency tab period gap cancel) =
      some FpgaMode.off ∧
    lastConf (Cotag c0) = some FpgaMode.off ∧
    lastConf (EM4xReadWord Addr Pwd2 PwdMode) = some FpgaMode.off ∧
    lastConf (EM4xWriteWord flag D2 P3) = some FpgaMode.off ∧
    lastConf (EM4xProtect flag D2 P3) = some FpgaMode.off ∧
    lastConf (T55xxWakeUp Pwd) = some FpgaMode.adcReaderField := by
  refine ⟨?_, ?_, ?_, ?_, ?_, ?_, ?_, ?_, ?_, ?_⟩
  · unfold ModThenAcquireRawAdcSamples125k
    split
    · split <;> (repeat apply lastConf_append_eq) <;> rfl
    · repeat apply lastConf_append_eq
      rfl
  · unfold T55xxResetRead
    repeat apply lastConf_append_eq
    rfl
  · unfold T55xxWriteBlockExt
    repeat apply lastConf_append_eq
    rfl
  · unfold T55xxReadBlock_trace
    repeat apply lastConf_append_eq
    rfl
  · simp [SimulateTagLowFrequency, lastConf, simLoop_lastConf]
  · unfold Cotag
    repeat apply lastConf_append_eq
    rfl
  · unfold EM4xReadWord
    repeat apply lastConf_append_eq
    rfl
  · unfold EM4xWriteWord
    repeat apply lastConf_append_eq
    rfl
  · unfold EM4xProtect
    repeat apply lastConf_append_eq
    rfl
  · unfold T55xxWakeUp
    repeat apply lastConf_append_eq
    rfl

/-! ### Theorems for claim C6 -/

/-- C6 counterexample.  With `delay_off = 0` (bit-bang mode) and
`period_0 = 3 < 7`, the warning is printed and the operation aborts, but
the reader field HAS been turned on: the power-up
`LFSetupFPGAForADC(divisor, 1)` and its 2-second tag-power-up dwell run
before the period check, so "the antenna field is never turned on" is
false. -/
theorem ModThenAcquire_timing_claim_false :
    (ModThenAcquireRawAdcSamples125k 0 3 100 ['1']).warned = true ∧
    (ModThenAcquireRawAdcSamples125k 0 3 100 ['1']).acquired = false ∧
    FieldEv.conf FpgaMode.adcReaderField ∈
      (ModThenAcquireRawAdcSamples125k 0 3 100 ['1']).trace := by
  decide

/-- C6 (amended).  If a requested modulation period is below the 7 µs
switchover latency in bit-bang mode, the warning is reported and the
operation aborts — no modulation and no acquisition happen and the field
is off on return — but the field has already been turned on once (for
about 2 s) to power the tag before the check, so it is not true that the
field is never turned on. -/
theorem ModThenAcquire_timing (delay_off p0 p1 : Nat) (command : List Char)
    (h0 : delay_off = 0) (h1 : p0 < 7 ∨ p1 < 7) :
    ModThenAcquireRawAdcSamples125k delay_off p0 p1 command =
      { trace := [FieldEv.conf FpgaMode.off, FieldEv.wait 2500000,
                  FieldEv.conf FpgaMode.adcReaderField, FieldEv.wait 2000000,
                  FieldEv.conf FpgaMode.off],
        warned := true, acquired := false } ∧
    FieldEv.conf FpgaMode.adcReaderField ∈
      (ModThenAcquireRawAdcSamples125k delay_off p0 p1 command).trace := by
  subst h0
  refine ⟨?_, ?_⟩ <;>
    simp [ModThenAcquireRawAdcSamples125k, h1, LFSetupFPGAForADC]

/-- Witness for C6 at `delay_off = 0`, `period_0 = 3`. -/
theorem ModThenAcquire_timing_witness :
    ModThenAcquireRawAdcSamples125k 0 3 100 ['1'] =
      { trace := [FieldEv.conf FpgaMode.off, FieldEv.wait 2500000,
                  FieldEv.conf FpgaMode.adcReaderField, FieldEv.wait 2000000,
                  FieldEv.conf FpgaMode.off],
        warned := true, acquired := false } := by
  have h := ModThenAcquire_timing 0 3 100 ['1'] rfl (Or.inl (by decide))
  exact h.1

end LFOps
